import Mathlib

/-
Verification development for the `toolenv` provisioning tool.

The Go sources (main.go) are shallowly embedded below:
* the fragment of Go's `text/template` engine that the program exercises
  (literal text plus `{{.ident}}` field actions executed against a
  `map[string]string`) is embedded as `parseTmpl` / `execNodes`;
* pure helpers (`normalizeSystem`, `buildURL`, `filepath.Ext`, the
  activation-script generator) are embedded as pure Lean functions;
* the effectful pipeline (`setup`, `installTool`) is embedded as a pure
  function from an explicit `World` oracle (outcomes of filesystem,
  network and subprocess operations) to the trace of external events it
  performs plus its `error` result.
-/

set_option autoImplicit false

namespace Toolenv

/-! ## Association lists standing for Go `map[string]string`

Go maps have unspecified iteration order; the embedding fixes one order
by using association lists.  No theorem below depends on the per-map
order, only on the manifest (list-of-tools) order, which Go does fix. -/

def lookupA : List (String × String) → String → Option String
  | [], _ => none
  | (k', v) :: rest, k => if k' = k then some v else lookupA rest k

instance {ε α : Type} [DecidableEq ε] [DecidableEq α] : DecidableEq (Except ε α) :=
  fun x y =>
    match x, y with
    | .ok a, .ok b => if h : a = b then isTrue (by rw [h]) else isFalse (by simp [h])
    | .error a, .error b => if h : a = b then isTrue (by rw [h]) else isFalse (by simp [h])
    | .ok _, .error _ => isFalse (by simp)
    | .error _, .ok _ => isFalse (by simp)

/-! ## The `text/template` fragment used by the program

`template.Parse` followed by `Execute` on a `map[string]string`.  The
templates this program meets consist of literal text and actions of the
form `{\x7b.ident\x7d\x7d` (possibly padded with whitespace inside the
delimiters).  Faithful behaviours kept by the embedding:
* a bare identifier action (no leading dot) is a *parse* error: Go
  resolves it as a function name and reports `function "x" not defined`;
* an unterminated action is a parse error (`unclosed action`);
* executing a field access against a `map[string]string` never fails;
  a key absent from the map renders as the literal text `<no value>`
  (Go's default `missingkey` option prints `<no value>` for an invalid
  map index).
Out of scope (never produced by this repository's templates, and mapped
to `badAction` parse errors): trim markers, pipelines, string literals,
chained fields, and template functions. -/

inductive TErr where
  | unclosedAction
  | emptyAction (body : String)
  | badAction (body : String)
  | funcNotDefined (name : String)
  | fuelExhausted
  deriving DecidableEq, Repr

inductive Node where
  | text (s : String)
  | field (name : String)
  deriving DecidableEq, Repr

def obrace : Char := Char.ofNat 123
def cbrace : Char := Char.ofNat 125

/-- Scan literal text up to the next `{\x7b` delimiter.  Returns the text
together with the remainder after the delimiter, or `none` when the
input holds no delimiter. -/
def scanText : List Char → List Char × Option (List Char)
  | [] => ([], none)
  | [c] => ([c], none)
  | c :: d :: rest =>
    if c = obrace ∧ d = obrace then ([], some rest)
    else
      match scanText (d :: rest) with
      | (t, r) => (c :: t, r)

/-- Read an action body up to the closing `\x7d\x7d` delimiter.  Returns
the body and the remainder, or `none` when the action is unclosed. -/
def readAction : List Char → Option (List Char × List Char)
  | [] => none
  | [_] => none
  | c :: d :: rest =>
    if c = cbrace ∧ d = cbrace then some ([], rest)
    else (readAction (d :: rest)).map (fun p => (c :: p.1, p.2))

def trimChars (l : List Char) : List Char :=
  ((l.dropWhile Char.isWhitespace).reverse.dropWhile Char.isWhitespace).reverse

def isIdentChar (c : Char) : Bool := c.isAlphanum || c = '_'

def isIdentChars : List Char → Bool
  | [] => false
  | c :: rest => (c.isAlpha || c = '_') && rest.all isIdentChar

/-- Classify one action body, as Go's parser does: `.ident` is a field
access; a bare identifier is an undefined function (parse error); any
other body is rejected. -/
def classifyChars (body : List Char) : Except TErr Node :=
  match trimChars body with
  | [] => .error (.emptyAction (String.mk body))
  | c :: rest =>
    if c = '.' then
      if isIdentChars rest then .ok (.field (String.mk rest))
      else .error (.badAction (String.mk body))
    else if isIdentChars (c :: rest) then .error (.funcNotDefined (String.mk (c :: rest)))
    else .error (.badAction (String.mk body))

/-- Parse loop.  The fuel argument only bounds the recursion; every
delimiter consumes at least two characters, so `length + 1` fuel (as
supplied by `parseTmpl`) can never run out. -/
def parseAux : Nat → List Char → Except TErr (List Node)
  | 0, _ => .error .fuelExhausted
  | fuel + 1, l =>
    match scanText l with
    | (txt, none) => .ok [Node.text (String.mk txt)]
    | (txt, some rest) =>
      match readAction rest with
      | none => .error .unclosedAction
      | some (body, rest2) => do
        let n ← classifyChars body
        let ns ← parseAux fuel rest2
        pure (Node.text (String.mk txt) :: n :: ns)

def parseTmpl (s : String) : Except TErr (List Node) :=
  parseAux (s.length + 1) s.data

/-- Render one node against the data map.  A key absent from the map
renders as Go's `<no value>` marker. -/
def execNode (data : List (String × String)) : Node → String
  | .text s => s
  | .field k => (lookupA data k).getD "<no value>"

def execNodes (data : List (String × String)) : List Node → String
  | [] => ""
  | n :: rest => execNode data n ++ execNodes data rest

/-! ## Tool data model (main.go `Config` / `Tool` / `ToolNormalization`) -/

structure ToolNormalization where
  arch : List (String × String)
  os : List (String × String)
  deriving DecidableEq, Repr

structure Tool where
  name : String
  version : String
  url : String
  env : List (String × String)
  normalization : Option ToolNormalization
  deriving DecidableEq, Repr

structure Config where
  tools : List Tool
  deriving DecidableEq, Repr

/-! ## normalizeSystem (main.go lines 125-140)

`runtime.GOOS` / `runtime.GOARCH` are ambient process state in Go; the
embedding passes the detected pair explicitly. -/

def normalizeSystem (spec : Option ToolNormalization) (goos goarch : String) :
    String × String :=
  match spec with
  | none => (goos, goarch)
  | some s => ((lookupA s.os goos).getD goos, (lookupA s.arch goarch).getD goarch)

/-! ## buildURL (main.go lines 142-162) -/

def urlData (version os_name arch : String) : List (String × String) :=
  [("version", version), ("os", os_name), ("arch", arch)]

def buildURL (template_string version os_name arch : String) : Except TErr String := do
  let nodes ← parseTmpl template_string
  pure (execNodes (urlData version os_name arch) nodes)

/-! ## filepath.Ext (Go standard library, as used at main.go line 195)

Scan backwards from the end of the path; stop at a path separator;
return the suffix starting at the final dot, or the empty string. -/

def goExtRev (acc : List Char) : List Char → List Char
  | [] => []
  | c :: rest =>
    if c = '/' then []
    else if c = '.' then '.' :: acc
    else goExtRev (c :: acc) rest

def filepathExt (s : String) : String := String.mk (goExtRev [] s.data.reverse)

/-! ## The effectful pipeline: installTool (lines 164-204) and setup (lines 53-107)

The embedding makes the outcomes of the external operations explicit in
a `World` oracle, indexed by the tool's position in the manifest, and
returns the ordered trace of the external events the pipeline performs
together with its result.  Events record operations that took effect
(`httpGet` records the request being issued, whatever the response):
`mkdirInstall` = the tool's install directory was created, `createTemp`
= the scratch download file was created, `removeTemp` = the scratch file
was removed by the deferred `os.Remove`, `extract` = the `tar`
subprocess was run against the install directory, `writeActivate` = the
activation script file was (over)written.  Downloaded bytes never appear
in the model because the program never inspects them. -/

inductive GetResult where
  | netErr
  | resp (status : Nat)
  deriving DecidableEq, Repr

structure World where
  mkdirBinOk : Bool
  removeStorageOk : Bool
  mkdirInstallOk : Nat → Bool
  get : Nat → GetResult
  createTempOk : Nat → Bool
  copyOk : Nat → Bool
  extractOk : Nat → Bool
  writeFileOk : Bool

inductive ExtractKind where
  | tarGz
  | tarXz
  deriving DecidableEq, Repr

inductive Event where
  | mkdirBin
  | removeStorage
  | mkdirInstall (i : Nat) (dir : String)
  | httpGet (i : Nat) (url : String)
  | createTemp (i : Nat)
  | copyBody (i : Nat)
  | extract (i : Nat) (kind : ExtractKind) (dir : String)
  | removeTemp (i : Nat)
  | writeActivate
  deriving DecidableEq, Repr

inductive RunError where
  | buildURLErr (e : TErr)
  | mkdirBinErr
  | removeStorageErr
  | mkdirInstallErr
  | netErr
  | statusErr (status : Nat)
  | createTempErr
  | copyErr
  | unsupportedFormat (ext : String)
  | extractionFailed
  | genScriptErr (e : TErr)
  | writeErr
  deriving DecidableEq, Repr

/-- installTool: GET the url; reject a non-200 status; create a scratch
temp file whose removal is deferred; copy the body into it; dispatch the
extraction strategy on the url's trailing extension (`.gz`/`.tgz` gzip
tar, `.xz` xz tar, otherwise an unsupported-format error).  The deferred
`os.Remove` runs on every return path entered after the temp file was
created. -/
def installTool (w : World) (i : Nat) (url install_dir : String) :
    List Event × Except RunError Unit :=
  match w.get i with
  | .netErr => ([.httpGet i url], .error .netErr)
  | .resp status =>
    if status = 200 then
      if w.createTempOk i then
        if w.copyOk i then
          let ext := filepathExt url
          if ext = ".gz" ∨ ext = ".tgz" then
            ([.httpGet i url, .createTemp i, .copyBody i,
              .extract i .tarGz install_dir, .removeTemp i],
             if w.extractOk i then .ok () else .error .extractionFailed)
          else if ext = ".xz" then
            ([.httpGet i url, .createTemp i, .copyBody i,
              .extract i .tarXz install_dir, .removeTemp i],
             if w.extractOk i then .ok () else .error .extractionFailed)
          else
            ([.httpGet i url, .createTemp i, .copyBody i, .removeTemp i],
             .error (.unsupportedFormat ext))
        else ([.httpGet i url, .createTemp i, .removeTemp i], .error .copyErr)
      else ([.httpGet i url], .error .createTempErr)
    else ([.httpGet i url], .error (.statusErr status))

/-- Per-tool loop of setup: normalize the platform, resolve the URL
template (aborting on a template error before any further effect for
that tool), create the install directory `env/storage/name@version`, and
run installTool. -/
def installLoop (w : World) (goos goarch : String) :
    Nat → List Tool → List Event × Except RunError Unit
  | _, [] => ([], .ok ())
  | i, t :: rest =>
    let na := normalizeSystem t.normalization goos goarch
    match buildURL t.url t.version na.1 na.2 with
    | .error e => ([], .error (.buildURLErr e))
    | .ok url =>
      let install_dir := "env/storage/" ++ t.name ++ "@" ++ t.version
      if w.mkdirInstallOk i then
        match installTool w i url install_dir with
        | (evs, .error e) => (Event.mkdirInstall i install_dir :: evs, .error e)
        | (evs, .ok _) =>
          match installLoop w goos goarch (i + 1) rest with
          | (evs2, r2) => (Event.mkdirInstall i install_dir :: (evs ++ evs2), r2)
      else ([], .error .mkdirInstallErr)

/-! ## generateActivationScript (main.go lines 221-282)

The generator is embedded in two layers that compose into the original
string builder: `scriptALines` produces the script's lines in the exact
order the Go code writes them, as a structured `ALine` list split at the
`deactivate()` function boundary, and `renderScript` maps each line to
the exact text the Go code writes for it.  `generateActivationScript`
is their composition. -/

def escapeQuotesChars : List Char → List Char
  | [] => []
  | c :: rest =>
    if c = '\"' then '\\' :: '\"' :: escapeQuotesChars rest
    else c :: escapeQuotesChars rest

/-- strings.ReplaceAll(value, quote, backslash-quote), main.go line 233. -/
def escapeQuotes (s : String) : String := String.mk (escapeQuotesChars s.data)

/-- Expansion of one env value template: escape double quotes, parse,
execute with only `version` bound (main.go lines 233-251). -/
def expandEnvValue (version value : String) : Except TErr String := do
  let nodes ← parseTmpl (escapeQuotes value)
  pure (execNodes [("version", version)] nodes)

/-- One line of the generated shell script, by shell effect. -/
inductive ALine where
  | comment (s : String)
  | setToolenvDir
  | savePath
  | pathExport (seg : String)
  | varExport (k seg : String)
  | saveOldPS1
  | setPrompt
  | restorePS1
  | unsetVar (k : String)
  | restorePath
  | unsetDeactivate
  deriving DecidableEq, Repr

/-- The generated script: the lines sourced directly, then the body of
the `deactivate()` function it defines. -/
structure AScript where
  exports : List ALine
  deacBody : List ALine
  deriving DecidableEq, Repr

/-- Append-only accumulation step shared by the generator's two loops:
compute the lines an item contributes and append them to the
accumulator, propagating the item's error. -/
def appendStep {α : Type} (h : α → Except TErr (List ALine)) (acc : List ALine)
    (x : α) : Except TErr (List ALine) := do
  pure (acc ++ (← h x))

/-- Lines contributed by one declared env entry: the `PATH` key prepends
to `$PATH`, every other key is exported on its own rooted at
`$TOOLENV_DIR`; the value template is expanded first and its error
propagates (main.go lines 232-256). -/
def toolEnvItem (version : String) (kv : String × String) :
    Except TErr (List ALine) := do
  let buf ← expandEnvValue version kv.2
  pure [if kv.1 = "PATH" then ALine.pathExport buf
        else ALine.varExport kv.1 buf]

/-- Env-loop lines for one tool, in declaration order. -/
def toolALines (t : Tool) : Except TErr (List ALine) :=
  t.env.foldlM (appendStep (toolEnvItem t.version)) []

/-- All lines of the script, in emission order (main.go lines 226-279). -/
def hdrLines (env_name : String) : List ALine :=
  [ALine.comment
     ("# This file must be used with \"source " ++ env_name
       ++ "/bin/activate\"\n"),
   ALine.comment "# It modifies the current shell environment.\n",
   ALine.setToolenvDir, ALine.savePath]

def tailLines : List ALine := [ALine.saveOldPS1, ALine.setPrompt]

/-- Lines of the deactivate body, in emission order (main.go lines
262-278): restore the prompt, drop its save, unset every non-PATH env
key tool by tool, restore PATH by value from PREVIOUS_PATH, and unset
the bookkeeping variables and the function itself. -/
def usLines (tools : List Tool) : List ALine :=
  tools.flatMap
    (fun t => (t.env.filter (fun kv => kv.1 ≠ "PATH")).map
      (fun kv => ALine.unsetVar kv.1))

def deacLinesOf (tools : List Tool) : List ALine :=
  [ALine.restorePS1, ALine.unsetVar "OLD_PS1"] ++
  usLines tools ++
  [ALine.restorePath, ALine.unsetVar "PREVIOUS_PATH",
   ALine.unsetVar "TOOLENV_DIR", ALine.unsetDeactivate]

def scriptALines (env_name : String) (tools : List Tool) :
    Except TErr AScript := do
  let envLines ← tools.foldlM (appendStep toolALines) []
  pure { exports := hdrLines env_name ++ envLines ++ tailLines
         deacBody := deacLinesOf tools }

/-- Exact text of each sourced line (main.go fmt strings). -/
def renderExportLine (env_name : String) : ALine → String
  | .comment s => s
  | .setToolenvDir => "export TOOLENV_DIR=\"$(pwd)/" ++ env_name ++ "\"\n"
  | .savePath => "export PREVIOUS_PATH=\"$PATH\"\n"
  | .pathExport seg => "export PATH=\"$TOOLENV_DIR/" ++ seg ++ ":$PATH\"\n"
  | .varExport k seg => "export " ++ k ++ "=\"$TOOLENV_DIR/" ++ seg ++ "\"\n"
  | .saveOldPS1 => "export OLD_PS1=\"$PS1\"\n"
  | .setPrompt => "export PS1=\"(toolenv:env) $PS1\"\n"
  | _ => ""

/-- Exact text of each line inside the deactivate body. -/
def renderDeacLine : ALine → String
  | .restorePS1 => "\texport PS1=\"$OLD_PS1\"\n"
  | .unsetVar k => "\tunset " ++ k ++ "\n"
  | .restorePath => "\texport PATH=$PREVIOUS_PATH\n"
  | .unsetDeactivate => "\tunset -f deactivate\n"
  | _ => ""

def concatStrings : List String → String
  | [] => ""
  | s :: rest => s ++ concatStrings rest

def renderScript (env_name : String) (sc : AScript) : String :=
  concatStrings (sc.exports.map (renderExportLine env_name)) ++
  "deactivate() \x7b\n" ++
  concatStrings (sc.deacBody.map renderDeacLine) ++
  "\x7d"

/-- The full generator: expand every env value (failing on the first
template error, exactly where the Go loop returns), then emit the
script text.  The write to `env/bin/activate` is an effect of `setup`
below. -/
def generateActivationScript (env_name : String) (tools : List Tool) :
    Except TErr String :=
  (scriptALines env_name tools).map (renderScript env_name)

/-- setup (main.go lines 53-107): ensure `env/bin`, wipe `env/storage`,
run the per-tool loop, then generate and write the activation script.
`loadEnv` (reading toolenv.yml) is not modelled; the decoded `Config` is
the input. -/
def setup (w : World) (goos goarch : String) (cfg : Config) :
    List Event × Except RunError Unit :=
  if w.mkdirBinOk then
    if w.removeStorageOk then
      match installLoop w goos goarch 0 cfg.tools with
      | (evs, .error e) => (Event.mkdirBin :: Event.removeStorage :: evs, .error e)
      | (evs, .ok _) =>
        match generateActivationScript "env" cfg.tools with
        | .error e =>
          (Event.mkdirBin :: Event.removeStorage :: evs, .error (.genScriptErr e))
        | .ok _ =>
          if w.writeFileOk then
            (Event.mkdirBin :: Event.removeStorage :: (evs ++ [Event.writeActivate]),
             .ok ())
          else (Event.mkdirBin :: Event.removeStorage :: evs, .error .writeErr)
    else ([Event.mkdirBin], .error .removeStorageErr)
  else ([], .error .mkdirBinErr)

/-! ## Shell semantics for the generated script

A shell state is the variable environment (an association list; the
first binding of a name wins, `unset` removes every binding of the
name) plus whether the `deactivate` function is defined.  Unset
variables expand to the empty string, as in POSIX shells. -/

structure ShellState where
  vars : List (String × String)
  hasDeactivate : Bool
  deriving DecidableEq, Repr

def getVar (st : ShellState) (k : String) : Option String := lookupA st.vars k

def valueOf (st : ShellState) (k : String) : String := (getVar st k).getD ""

def setVar (st : ShellState) (k v : String) : ShellState :=
  { st with vars := (k, v) :: st.vars }

def unsetVarS (st : ShellState) (k : String) : ShellState :=
  { st with vars := st.vars.filter (fun p => p.1 ≠ k) }

/-- Effect of sourcing one script line, with the invoker's working
directory `pwd` supplying `$(pwd)`. -/
def evalALine (pwd env_name : String) (st : ShellState) : ALine → ShellState
  | .comment _ => st
  | .setToolenvDir => setVar st "TOOLENV_DIR" (pwd ++ "/" ++ env_name)
  | .savePath => setVar st "PREVIOUS_PATH" (valueOf st "PATH")
  | .pathExport seg =>
    setVar st "PATH"
      (valueOf st "TOOLENV_DIR" ++ "/" ++ seg ++ ":" ++ valueOf st "PATH")
  | .varExport k seg => setVar st k (valueOf st "TOOLENV_DIR" ++ "/" ++ seg)
  | .saveOldPS1 => setVar st "OLD_PS1" (valueOf st "PS1")
  | .setPrompt => setVar st "PS1" ("(toolenv:env) " ++ valueOf st "PS1")
  | .restorePS1 => setVar st "PS1" (valueOf st "OLD_PS1")
  | .unsetVar k => unsetVarS st k
  | .restorePath => setVar st "PATH" (valueOf st "PREVIOUS_PATH")
  | .unsetDeactivate => { st with hasDeactivate := false }

def evalALines (pwd env_name : String) (st : ShellState) (ls : List ALine) :
    ShellState :=
  ls.foldl (evalALine pwd env_name) st

/-- Sourcing the script runs the export lines and defines `deactivate`. -/
def sourceScript (pwd env_name : String) (sc : AScript) (st : ShellState) :
    ShellState :=
  { evalALines pwd env_name st sc.exports with hasDeactivate := true }

/-- Invoking the generated `deactivate` function runs its body. -/
def runDeactivate (pwd env_name : String) (sc : AScript) (st : ShellState) :
    ShellState :=
  evalALines pwd env_name st sc.deacBody

/-! ## Shared helper lemmas -/

theorem buildURL_eq_of_parse (t v o a : String) (ns : List Node)
    (h : parseTmpl t = Except.ok ns) :
    buildURL t v o a = Except.ok (execNodes (urlData v o a) ns) := by
  simp [buildURL, h]

theorem buildURL_err_of_parse (t v o a : String) (e : TErr)
    (h : parseTmpl t = Except.error e) :
    buildURL t v o a = Except.error e := by
  simp [buildURL, h]

theorem execNodes_append (data : List (String × String)) (xs ys : List Node) :
    execNodes data (xs ++ ys) = execNodes data xs ++ execNodes data ys := by
  induction xs with
  | nil => simp [execNodes]
  | cons n rest ih => simp [execNodes, ih, String.append_assoc]

/-! ## Claim C1 -/

/-- C1 fails as stated: the undotted template placeholders of the
claim's example are function references in the implementation's
template language, so parsing rejects the template and resolution does
not succeed at all. -/
theorem c1_counterexample :
    buildURL "https://x/\x7b\x7bversion\x7d\x7d/\x7b\x7bos\x7d\x7d-\x7b\x7barch\x7d\x7d.tgz"
        "1.0" "linux" "x64"
      = Except.error (TErr.funcNotDefined "version") ∧
    buildURL "https://x/\x7b\x7bversion\x7d\x7d/\x7b\x7bos\x7d\x7d-\x7b\x7barch\x7d\x7d.tgz"
        "1.0" "linux" "x64"
      ≠ Except.ok "https://x/1.0/linux-x64.tgz" := by
  decide

/-- C1 (amended): template resolution (buildURL) is a pure function of
the template string and the variable bindings, and the example template
written in the implementation's field syntax, with bindings version
"1.0", os "linux", arch "x64", resolves to
"https://x/1.0/linux-x64.tgz". -/
theorem c1_buildURL_pure_and_example :
    (∀ (t v o a : String) (r₁ r₂ : Except TErr String),
       buildURL t v o a = r₁ → buildURL t v o a = r₂ → r₁ = r₂) ∧
    buildURL "https://x/\x7b\x7b.version\x7d\x7d/\x7b\x7b.os\x7d\x7d-\x7b\x7b.arch\x7d\x7d.tgz"
        "1.0" "linux" "x64"
      = Except.ok "https://x/1.0/linux-x64.tgz" := by
  refine ⟨?_, by decide⟩
  intro t v o a r₁ r₂ h₁ h₂
  rw [← h₁, ← h₂]

/-- C1 witness: the purity statement instantiated at the example
template and bindings. -/
theorem c1_witness :
    (Except.ok "https://x/1.0/linux-x64.tgz" : Except TErr String)
      = Except.ok "https://x/1.0/linux-x64.tgz" :=
  c1_buildURL_pure_and_example.1
    "https://x/\x7b\x7b.version\x7d\x7d/\x7b\x7b.os\x7d\x7d-\x7b\x7b.arch\x7d\x7d.tgz"
    "1.0" "linux" "x64" _ _
    c1_buildURL_pure_and_example.2 c1_buildURL_pure_and_example.2

/-! ## Claim C3 -/

/-- C3 fails as stated: expansion of an unknown variable does not fail,
but it substitutes the literal marker text rather than empty text; the
output for the template a\x7b\x7b.foo\x7d\x7db is "a<no value>b", not
"ab". -/
theorem c3_counterexample :
    buildURL "a\x7b\x7b.foo\x7d\x7db" "1.0" "linux" "x64"
      = Except.ok "a<no value>b" ∧
    ("a<no value>b" : String) ≠ "ab" := by
  decide

/-- C3 (amended): a template mentioning a variable outside the
supported set (version, os, arch for URLs; version for env values)
still expands without failing, and the unknown variable is substituted
as the literal marker text "<no value>" rather than as empty text. -/
theorem c3_unknown_vars_still_expand
    (t v o a val ver w u : String) (ns ns₁ ns₂ ms ms₁ ms₂ : List Node) :
    (parseTmpl t = Except.ok ns →
      buildURL t v o a = Except.ok (execNodes (urlData v o a) ns)) ∧
    (parseTmpl t = Except.ok (ns₁ ++ Node.field w :: ns₂) →
      w ≠ "version" → w ≠ "os" → w ≠ "arch" →
      buildURL t v o a = Except.ok
        (execNodes (urlData v o a) ns₁ ++ "<no value>"
          ++ execNodes (urlData v o a) ns₂)) ∧
    (parseTmpl (escapeQuotes val) = Except.ok ms →
      expandEnvValue ver val = Except.ok (execNodes [("version", ver)] ms)) ∧
    (parseTmpl (escapeQuotes val) = Except.ok (ms₁ ++ Node.field u :: ms₂) →
      u ≠ "version" →
      expandEnvValue ver val = Except.ok
        (execNodes [("version", ver)] ms₁ ++ "<no value>"
          ++ execNodes [("version", ver)] ms₂)) := by
  refine ⟨fun h => buildURL_eq_of_parse t v o a ns h, ?_, ?_, ?_⟩
  · intro h hv ho ha
    rw [buildURL_eq_of_parse t v o a _ h, execNodes_append]
    simp [execNodes, execNode, urlData, lookupA,
      Ne.symm hv, Ne.symm ho, Ne.symm ha, String.append_assoc]
  · intro h
    simp [expandEnvValue, h]
  · intro h hu
    simp only [expandEnvValue, h]
    show Except.ok (execNodes [("version", ver)] (ms₁ ++ Node.field u :: ms₂)) = _
    rw [execNodes_append]
    simp [execNodes, execNode, lookupA, Ne.symm hu, String.append_assoc]

/-- C3 witness: the amended behaviour at the concrete template
a\x7b\x7b.foo\x7d\x7db for URLs and storage/\x7b\x7b.os\x7d\x7d for env
values. -/
theorem c3_witness :
    buildURL "a\x7b\x7b.foo\x7d\x7db" "1.0" "linux" "x64"
      = Except.ok (execNodes (urlData "1.0" "linux" "x64") [Node.text "a"]
          ++ "<no value>"
          ++ execNodes (urlData "1.0" "linux" "x64") [Node.text "b"]) ∧
    expandEnvValue "1.0" "storage/\x7b\x7b.os\x7d\x7d"
      = Except.ok (execNodes [("version", "1.0")] [Node.text "storage/"]
          ++ "<no value>"
          ++ execNodes [("version", "1.0")] [Node.text ""]) :=
  ⟨((c3_unknown_vars_still_expand "a\x7b\x7b.foo\x7d\x7db" "1.0" "linux" "x64"
      "" "" "foo" "" [] [Node.text "a"] [Node.text "b"] [] [] []).2.1
      (by decide) (by decide) (by decide) (by decide)),
   ((c3_unknown_vars_still_expand "" "" "" "" "storage/\x7b\x7b.os\x7d\x7d" "1.0"
      "" "os" [] [] [] [] [Node.text "storage/"] [Node.text ""]).2.2.2
      (by decide) (by decide))⟩

/-! ## Claim C4 -/

/-- C4: platform normalization starts from the detected (os, arch)
pair, substitutes each axis independently through the per-tool tables
when the detected value is mapped, passes unmapped values (and an
absent record) through unchanged, and the result on one axis never
depends on the other axis's table. -/
theorem c4_normalizeSystem_axes (spec : Option ToolNormalization)
    (goos goarch : String) :
    normalizeSystem none goos goarch = (goos, goarch) ∧
    (∀ s, spec = some s →
      ((∀ a, lookupA s.arch goarch = some a →
          (normalizeSystem spec goos goarch).2 = a) ∧
       (lookupA s.arch goarch = none →
          (normalizeSystem spec goos goarch).2 = goarch) ∧
       (∀ o, lookupA s.os goos = some o →
          (normalizeSystem spec goos goarch).1 = o) ∧
       (lookupA s.os goos = none →
          (normalizeSystem spec goos goarch).1 = goos))) ∧
    (∀ s s' : ToolNormalization, s.os = s'.os →
      (normalizeSystem (some s) goos goarch).1
        = (normalizeSystem (some s') goos goarch).1) ∧
    (∀ s s' : ToolNormalization, s.arch = s'.arch →
      (normalizeSystem (some s) goos goarch).2
        = (normalizeSystem (some s') goos goarch).2) := by
  refine ⟨rfl, ?_, ?_, ?_⟩
  · rintro s rfl
    refine ⟨?_, ?_, ?_, ?_⟩
    · intro a h; simp [normalizeSystem, h]
    · intro h; simp [normalizeSystem, h]
    · intro o h; simp [normalizeSystem, h]
    · intro h; simp [normalizeSystem, h]
  · intro s s' h; simp [normalizeSystem, h]
  · intro s s' h; simp [normalizeSystem, h]

/-- C4 witness: a tool mapping amd64 to x64 on a host detected as
(linux, amd64) resolves arch to x64, and the os axis passes through. -/
theorem c4_witness :
    (normalizeSystem (some ⟨[("amd64", "x64")], []⟩) "linux" "amd64").2 = "x64" :=
  ((c4_normalizeSystem_axes (some ⟨[("amd64", "x64")], []⟩) "linux" "amd64").2.1
    ⟨[("amd64", "x64")], []⟩ rfl).1 "x64" (by decide)

/-! ## Concrete worlds used by witnesses -/

def allOkWorld : World :=
  { mkdirBinOk := true
    removeStorageOk := true
    mkdirInstallOk := fun _ => true
    get := fun _ => GetResult.resp 200
    createTempOk := fun _ => true
    copyOk := fun _ => true
    extractOk := fun _ => true
    writeFileOk := true }

def notFoundWorld : World := { allOkWorld with get := fun _ => GetResult.resp 404 }

/-! ## Claim C2 -/

/-- Extraction strategy recorded by an event, if any. -/
def extractKindOf : Event → Option ExtractKind
  | .extract _ k _ => some k
  | _ => none

/-- C2: once the download succeeded, the extraction strategy is
dispatched solely on the URL's trailing extension: .tgz or .gz runs
gzip-tar extraction, .xz runs xz-tar extraction, any other extension
fails with the unsupported-format error and runs no extraction at all;
and two URLs with the same extension select the same strategies, so the
downloaded content (absent from the model because the program never
reads it) plays no part. -/
theorem c2_dispatch_on_extension (w : World) (i : Nat) (url install_dir : String)
    (hget : w.get i = GetResult.resp 200)
    (htmp : w.createTempOk i = true) (hcopy : w.copyOk i = true) :
    ((filepathExt url = ".gz" ∨ filepathExt url = ".tgz") →
      Event.extract i ExtractKind.tarGz install_dir
        ∈ (installTool w i url install_dir).1) ∧
    (filepathExt url = ".xz" →
      Event.extract i ExtractKind.tarXz install_dir
        ∈ (installTool w i url install_dir).1) ∧
    (filepathExt url ≠ ".gz" → filepathExt url ≠ ".tgz" → filepathExt url ≠ ".xz" →
      (installTool w i url install_dir).2
        = Except.error (RunError.unsupportedFormat (filepathExt url)) ∧
      ∀ k d, Event.extract i k d ∉ (installTool w i url install_dir).1) ∧
    (∀ url', filepathExt url' = filepathExt url →
      (installTool w i url' install_dir).1.filterMap extractKindOf
        = (installTool w i url install_dir).1.filterMap extractKindOf) := by
  refine ⟨?_, ?_, ?_, ?_⟩
  · intro hext
    simp [installTool, hget, htmp, hcopy, hext]
  · intro hext
    have hne : ¬ (filepathExt url = ".gz" ∨ filepathExt url = ".tgz") := by
      rw [hext]; decide
    simp [installTool, hget, htmp, hcopy, hne, hext]
  · intro h1 h2 h3
    have hne : ¬ (filepathExt url = ".gz" ∨ filepathExt url = ".tgz") := by
      simp [h1, h2]
    simp [installTool, hget, htmp, hcopy, hne, h3]
  · intro url' hsame
    by_cases hgz : filepathExt url = ".gz" ∨ filepathExt url = ".tgz"
    · have hgz' : filepathExt url' = ".gz" ∨ filepathExt url' = ".tgz" := by
        rw [hsame]; exact hgz
      simp [installTool, hget, htmp, hcopy, hgz, hgz', extractKindOf]
    · have hgz' : ¬ (filepathExt url' = ".gz" ∨ filepathExt url' = ".tgz") := by
        rw [hsame]; exact hgz
      by_cases hxz : filepathExt url = ".xz"
      · have hxz' : filepathExt url' = ".xz" := by rw [hsame]; exact hxz
        simp [installTool, hget, htmp, hcopy, hgz, hgz', hxz, hxz', extractKindOf]
      · have hxz' : ¬ filepathExt url' = ".xz" := by rw [hsame]; exact hxz
        simp [installTool, hget, htmp, hcopy, hgz, hgz', hxz, hxz', extractKindOf]

/-- C2 witness: with a fully successful world, a .tgz URL runs gzip-tar
extraction. -/
theorem c2_witness :
    Event.extract 0 ExtractKind.tarGz "d"
      ∈ (installTool allOkWorld 0 "https://x/a.tgz" "d").1 :=
  (c2_dispatch_on_extension allOkWorld 0 "https://x/a.tgz" "d"
      rfl rfl rfl).1 (by decide)

/-! ## Claim C8 -/

/-- C8: once the scratch download file has been created, it is removed
on every exit path of installTool — success, copy failure, and
extraction failure alike — in every world. -/
theorem c8_scratch_always_removed (w : World) (i : Nat) (url install_dir : String)
    (h : Event.createTemp i ∈ (installTool w i url install_dir).1) :
    Event.removeTemp i ∈ (installTool w i url install_dir).1 := by
  rcases hg : w.get i with _ | status
  · simp [installTool, hg] at h
  · by_cases h200 : status = 200
    · subst h200
      by_cases ht : w.createTempOk i
      · by_cases hc : w.copyOk i
        · by_cases hgz : filepathExt url = ".gz" ∨ filepathExt url = ".tgz"
          · simp [installTool, hg, ht, hc, hgz]
          · by_cases hxz : filepathExt url = ".xz"
            · simp [installTool, hg, ht, hc, hgz, hxz]
            · simp [installTool, hg, ht, hc, hgz, hxz]
        · simp [installTool, hg, ht, hc]
      · simp [installTool, hg, ht] at h
    · simp [installTool, hg, h200] at h

/-- C8 witness: in a world where extraction fails, the scratch file is
still created and removed. -/
theorem c8_witness :
    Event.removeTemp 0
      ∈ (installTool { allOkWorld with extractOk := fun _ => false }
          0 "https://x/a.tgz" "d").1 :=
  c8_scratch_always_removed _ 0 "https://x/a.tgz" "d" (by decide)

/-! ## Claim C10 -/

/-- C10: a response with any status other than 200 makes installTool
return an error whose trace is exactly the network request: no scratch
file is created, no extraction strategy is selected, and nothing is
written into the install directory. -/
theorem c10_non200_stops_before_scratch (w : World) (i : Nat)
    (url install_dir : String) (status : Nat)
    (hget : w.get i = GetResult.resp status) (hne : status ≠ 200) :
    (installTool w i url install_dir).1 = [Event.httpGet i url] ∧
    (installTool w i url install_dir).2
      = Except.error (RunError.statusErr status) := by
  simp [installTool, hget, hne]

/-- C10 witness: a 404 response leaves only the network request in the
trace. -/
theorem c10_witness :
    (installTool notFoundWorld 0 "https://x/a.tgz" "d").1
      = [Event.httpGet 0 "https://x/a.tgz"] ∧
    (installTool notFoundWorld 0 "https://x/a.tgz" "d").2
      = Except.error (RunError.statusErr 404) :=
  c10_non200_stops_before_scratch notFoundWorld 0 "https://x/a.tgz" "d" 404
    rfl (by decide)

/-! ## Claim C7 -/

/-- Manifest position a trace event belongs to, when it is per-tool. -/
def eventIndex : Event → Option Nat
  | .mkdirInstall i _ => some i
  | .httpGet i _ => some i
  | .createTemp i => some i
  | .copyBody i => some i
  | .extract i _ _ => some i
  | .removeTemp i => some i
  | _ => none

theorem installTool_eventIndex (w : World) (i : Nat) (url dir : String) :
    ∀ e ∈ (installTool w i url dir).1, eventIndex e = some i := by
  intro e he
  rcases hg : w.get i with _ | status
  · simp [installTool, hg] at he
    simp [he, eventIndex]
  · by_cases h200 : status = 200
    · subst h200
      by_cases ht : w.createTempOk i
      · by_cases hc : w.copyOk i
        · by_cases hgz : filepathExt url = ".gz" ∨ filepathExt url = ".tgz"
          · simp [installTool, hg, ht, hc, hgz] at he
            rcases he with rfl | rfl | rfl | rfl | rfl <;> rfl
          · by_cases hxz : filepathExt url = ".xz"
            · simp [installTool, hg, ht, hc, hgz, hxz] at he
              rcases he with rfl | rfl | rfl | rfl | rfl <;> rfl
            · simp [installTool, hg, ht, hc, hgz, hxz] at he
              rcases he with rfl | rfl | rfl | rfl <;> rfl
        · simp [installTool, hg, ht, hc] at he
          rcases he with rfl | rfl | rfl <;> rfl
      · simp [installTool, hg, ht] at he
        simp [he, eventIndex]
    · simp [installTool, hg, h200] at he
      simp [he, eventIndex]

theorem installLoop_buildURL_fail (w : World) (goos goarch : String) :
    ∀ (ts : List Tool) (i0 j : Nat) (t : Tool),
      ts[j]? = some t →
      (∃ e, buildURL t.url t.version
          (normalizeSystem t.normalization goos goarch).1
          (normalizeSystem t.normalization goos goarch).2 = Except.error e) →
      (installLoop w goos goarch i0 ts).2.isOk = false ∧
      ∀ ev ∈ (installLoop w goos goarch i0 ts).1, eventIndex ev ≠ some (i0 + j) := by
  intro ts
  induction ts with
  | nil => intro i0 j t hj; simp at hj
  | cons hd rest ih =>
    intro i0 j t hj hfail
    cases j with
    | zero =>
      simp at hj
      subst hj
      obtain ⟨e, he⟩ := hfail
      constructor
      · simp [installLoop, he, Except.isOk, Except.toBool]
      · intro ev hev
        simp [installLoop, he] at hev
    | succ j' =>
      simp only [List.getElem?_cons_succ] at hj
      rcases hbu : buildURL hd.url hd.version
          (normalizeSystem hd.normalization goos goarch).1
          (normalizeSystem hd.normalization goos goarch).2 with e | url
      · constructor
        · simp [installLoop, hbu, Except.isOk, Except.toBool]
        · intro ev hev
          simp [installLoop, hbu] at hev
      · by_cases hmk : w.mkdirInstallOk i0
        · have ihres := ih (i0 + 1) j' t hj hfail
          rcases hit : installTool w i0 url
              ("env/storage/" ++ hd.name ++ "@" ++ hd.version) with ⟨evs, r⟩
          cases r with
          | error e =>
            constructor
            · simp [installLoop, hbu, hmk, hit, Except.isOk, Except.toBool]
            · intro ev hev
              simp [installLoop, hbu, hmk, hit] at hev
              rcases hev with rfl | hev
              · simp [eventIndex]
                try omega
              · have := installTool_eventIndex w i0 url
                  ("env/storage/" ++ hd.name ++ "@" ++ hd.version) ev
                  (by rw [hit]; exact hev)
                rw [this]
                simp
                try omega
          | ok _ =>
            rcases hloop : installLoop w goos goarch (i0 + 1) rest with ⟨evs2, r2⟩
            constructor
            · have := ihres.1
              rw [hloop] at this
              simpa [installLoop, hbu, hmk, hit, hloop] using this
            · intro ev hev
              simp [installLoop, hbu, hmk, hit, hloop] at hev
              rcases hev with rfl | hev | hev
              · simp [eventIndex]
                try omega
              · have := installTool_eventIndex w i0 url
                  ("env/storage/" ++ hd.name ++ "@" ++ hd.version) ev
                  (by rw [hit]; exact hev)
                rw [this]
                simp
                try omega
              · have := ihres.2 ev (by rw [hloop]; exact hev)
                rw [show i0 + 1 + j' = i0 + (j' + 1) by omega] at this
                exact this
        · constructor
          · simp [installLoop, hbu, hmk, Except.isOk, Except.toBool]
          · intro ev hev
            simp [installLoop, hbu, hmk] at hev

/-- C7: when the manifest's tool at position j has a url template that
fails to parse, the whole run returns an error, no network request is
ever issued for that tool, and that tool's install directory is never
created. -/
theorem c7_template_error_aborts_before_effects (w : World)
    (goos goarch : String) (cfg : Config) (j : Nat) (t : Tool) (e : TErr)
    (hj : cfg.tools[j]? = some t)
    (hfail : parseTmpl t.url = Except.error e) :
    (setup w goos goarch cfg).2.isOk = false ∧
    (∀ url, Event.httpGet j url ∉ (setup w goos goarch cfg).1) ∧
    (∀ d, Event.mkdirInstall j d ∉ (setup w goos goarch cfg).1) := by
  have hfail' : ∃ e', buildURL t.url t.version
      (normalizeSystem t.normalization goos goarch).1
      (normalizeSystem t.normalization goos goarch).2 = Except.error e' :=
    ⟨e, buildURL_err_of_parse _ _ _ _ e hfail⟩
  have hloop := installLoop_buildURL_fail w goos goarch cfg.tools 0 j t hj hfail'
  by_cases hbin : w.mkdirBinOk
  · by_cases hrm : w.removeStorageOk
    · rcases hl : installLoop w goos goarch 0 cfg.tools with ⟨evs, r⟩
      rw [hl] at hloop
      cases r with
      | error e' =>
        refine ⟨?_, ?_, ?_⟩
        · simp [setup, hbin, hrm, hl, Except.isOk, Except.toBool]
        · intro url hmem
          simp [setup, hbin, hrm, hl] at hmem
          exact hloop.2 _ hmem (by simp [eventIndex])
        · intro d hmem
          simp [setup, hbin, hrm, hl] at hmem
          exact hloop.2 _ hmem (by simp [eventIndex])
      | ok _ => simp [Except.isOk, Except.toBool] at hloop
    · refine ⟨?_, ?_, ?_⟩ <;> simp [setup, hbin, hrm, Except.isOk, Except.toBool]
  · refine ⟨?_, ?_, ?_⟩ <;> simp [setup, hbin, Except.isOk, Except.toBool]

/-- C7 witness: a one-tool manifest whose url template has an unclosed
action performs no network request and creates no install directory,
instantiated from the general theorem. -/
theorem c7_witness :
    (setup allOkWorld "linux" "amd64"
        ⟨[⟨"go", "1.0", "https://x/\x7b\x7b.version", [], none⟩]⟩).2.isOk = false ∧
    (∀ url, Event.httpGet 0 url ∉ (setup allOkWorld "linux" "amd64"
        ⟨[⟨"go", "1.0", "https://x/\x7b\x7b.version", [], none⟩]⟩).1) ∧
    (∀ d, Event.mkdirInstall 0 d ∉ (setup allOkWorld "linux" "amd64"
        ⟨[⟨"go", "1.0", "https://x/\x7b\x7b.version", [], none⟩]⟩).1) :=
  c7_template_error_aborts_before_effects allOkWorld "linux" "amd64"
    ⟨[⟨"go", "1.0", "https://x/\x7b\x7b.version", [], none⟩]⟩ 0
    ⟨"go", "1.0", "https://x/\x7b\x7b.version", [], none⟩
    TErr.unclosedAction (by decide) (by decide)

/-! ## Claim C9 -/

/-- Whether a trace event creates a directory under `env/storage`.  The
only directory-creating operations of the pipeline are the `env/bin`
MkdirAll and the per-tool install-directory MkdirAll; only the latter
touches the storage tree (os.RemoveAll deletes, os.WriteFile writes a
file under `env/bin`). -/
def createsStorage : Event → Bool
  | .mkdirInstall _ _ => true
  | _ => false

/-- A concrete single-tool manifest whose install succeeds outright. -/
def tgzTool : Tool :=
  ⟨"go", "1.25.0", "https://x/\x7b\x7b.version\x7d\x7d.tgz", [], none⟩

/-- C9 fails as stated: on a run over an empty manifest the pipeline
deletes `env/storage` and overwrites `bin/activate` but never recreates
the storage directory — the trace holds no storage-creating event, yet
the run succeeds. -/
theorem c9_counterexample :
    (setup allOkWorld "linux" "amd64" ⟨[]⟩).1
      = [Event.mkdirBin, Event.removeStorage, Event.writeActivate] ∧
    ((setup allOkWorld "linux" "amd64" ⟨[]⟩).1.all
      (fun ev => createsStorage ev = false)) ∧
    (setup allOkWorld "linux" "amd64" ⟨[]⟩).2 = Except.ok () := by
  refine ⟨by decide, ?_, by decide⟩
  decide

/-- C9 (amended): on every run, `env/storage` is deleted before any
install-directory creation and before any download (every such event
sits strictly after the removeStorage event, which is the second trace
entry); the storage directory is recreated only implicitly, by the
per-tool install-directory creations, so a manifest with an empty tool
list leaves it absent; and `bin/activate` is (over)written whenever the
run completes successfully. -/
theorem c9_storage_reset_and_activate (w : World) (goos goarch : String)
    (cfg : Config) :
    (∀ i d, Event.mkdirInstall i d ∈ (setup w goos goarch cfg).1 →
      ∃ rest, (setup w goos goarch cfg).1
          = Event.mkdirBin :: Event.removeStorage :: rest ∧
        Event.mkdirInstall i d ∈ rest) ∧
    (∀ i url, Event.httpGet i url ∈ (setup w goos goarch cfg).1 →
      ∃ rest, (setup w goos goarch cfg).1
          = Event.mkdirBin :: Event.removeStorage :: rest ∧
        Event.httpGet i url ∈ rest) ∧
    (cfg.tools = [] →
      ∀ ev ∈ (setup w goos goarch cfg).1, createsStorage ev = false) ∧
    ((setup w goos goarch cfg).2 = Except.ok () →
      Event.writeActivate ∈ (setup w goos goarch cfg).1) := by
  obtain ⟨tools⟩ := cfg
  by_cases hbin : w.mkdirBinOk
  · by_cases hrm : w.removeStorageOk
    · rcases hl : installLoop w goos goarch 0 tools with ⟨evs, r⟩
      cases r with
      | error e =>
        have htr : (setup w goos goarch ⟨tools⟩).1
            = Event.mkdirBin :: Event.removeStorage :: evs := by
          simp [setup, hbin, hrm, hl]
        have hres : (setup w goos goarch ⟨tools⟩).2 = Except.error e := by
          simp [setup, hbin, hrm, hl]
        refine ⟨?_, ?_, ?_, ?_⟩
        · intro i d hmem
          refine ⟨evs, htr, ?_⟩
          rw [htr] at hmem
          simp only [List.mem_cons] at hmem
          rcases hmem with h | h | h
          · simp at h
          · simp at h
          · exact h
        · intro i url hmem
          refine ⟨evs, htr, ?_⟩
          rw [htr] at hmem
          simp only [List.mem_cons] at hmem
          rcases hmem with h | h | h
          · simp at h
          · simp at h
          · exact h
        · intro hnil
          subst hnil
          simp [installLoop] at hl
        · intro hok
          rw [hres] at hok
          simp at hok
      | ok _ =>
        rcases hg : generateActivationScript "env" tools with e | script
        · have htr : (setup w goos goarch ⟨tools⟩).1
              = Event.mkdirBin :: Event.removeStorage :: evs := by
            simp [setup, hbin, hrm, hl, hg]
          have hres : (setup w goos goarch ⟨tools⟩).2
              = Except.error (RunError.genScriptErr e) := by
            simp [setup, hbin, hrm, hl, hg]
          refine ⟨?_, ?_, ?_, ?_⟩
          · intro i d hmem
            refine ⟨evs, htr, ?_⟩
            rw [htr] at hmem
            simp only [List.mem_cons] at hmem
            rcases hmem with h | h | h
            · simp at h
            · simp at h
            · exact h
          · intro i url hmem
            refine ⟨evs, htr, ?_⟩
            rw [htr] at hmem
            simp only [List.mem_cons] at hmem
            rcases hmem with h | h | h
            · simp at h
            · simp at h
            · exact h
          · intro hnil
            subst hnil
            have hgok : (generateActivationScript "env" ([] : List Tool)).isOk
                = true := by decide
            rw [hg] at hgok
            simp [Except.isOk, Except.toBool] at hgok
          · intro hok
            rw [hres] at hok
            simp at hok
        · by_cases hw : w.writeFileOk
          · have htr : (setup w goos goarch ⟨tools⟩).1
                = Event.mkdirBin :: Event.removeStorage
                    :: (evs ++ [Event.writeActivate]) := by
              simp [setup, hbin, hrm, hl, hg, hw]
            refine ⟨?_, ?_, ?_, ?_⟩
            · intro i d hmem
              refine ⟨evs ++ [Event.writeActivate], htr, ?_⟩
              rw [htr] at hmem
              simp only [List.mem_cons] at hmem
              rcases hmem with h | h | h
              · simp at h
              · simp at h
              · exact h
            · intro i url hmem
              refine ⟨evs ++ [Event.writeActivate], htr, ?_⟩
              rw [htr] at hmem
              simp only [List.mem_cons] at hmem
              rcases hmem with h | h | h
              · simp at h
              · simp at h
              · exact h
            · intro hnil
              subst hnil
              simp [installLoop] at hl
              subst hl
              intro ev hmem
              rw [htr] at hmem
              simp only [List.nil_append, List.mem_cons,
                List.mem_singleton] at hmem
              rcases hmem with rfl | rfl | rfl | h
              · rfl
              · rfl
              · rfl
              · simp at h
            · intro _
              rw [htr]
              simp
          · have htr : (setup w goos goarch ⟨tools⟩).1
                = Event.mkdirBin :: Event.removeStorage :: evs := by
              simp [setup, hbin, hrm, hl, hg, hw]
            have hres : (setup w goos goarch ⟨tools⟩).2
                = Except.error RunError.writeErr := by
              simp [setup, hbin, hrm, hl, hg, hw]
            refine ⟨?_, ?_, ?_, ?_⟩
            · intro i d hmem
              refine ⟨evs, htr, ?_⟩
              rw [htr] at hmem
              simp only [List.mem_cons] at hmem
              rcases hmem with h | h | h
              · simp at h
              · simp at h
              · exact h
            · intro i url hmem
              refine ⟨evs, htr, ?_⟩
              rw [htr] at hmem
              simp only [List.mem_cons] at hmem
              rcases hmem with h | h | h
              · simp at h
              · simp at h
              · exact h
            · intro hnil
              subst hnil
              simp [installLoop] at hl
              subst hl
              intro ev hmem
              rw [htr] at hmem
              simp only [List.mem_cons] at hmem
              rcases hmem with rfl | h
              · rfl
              · rcases h with rfl | h
                · rfl
                · simp at h
            · intro hok
              rw [hres] at hok
              simp at hok
    · have htr : (setup w goos goarch ⟨tools⟩).1 = [Event.mkdirBin] := by
        simp [setup, hbin, hrm]
      have hres : (setup w goos goarch ⟨tools⟩).2
          = Except.error RunError.removeStorageErr := by
        simp [setup, hbin, hrm]
      refine ⟨?_, ?_, ?_, ?_⟩
      · intro i d hmem
        rw [htr] at hmem
        simp at hmem
      · intro i url hmem
        rw [htr] at hmem
        simp at hmem
      · intro hnil ev hmem
        rw [htr] at hmem
        simp at hmem
        subst hmem
        rfl
      · intro hok
        rw [hres] at hok
        simp at hok
  · have htr : (setup w goos goarch ⟨tools⟩).1 = [] := by
      simp [setup, hbin]
    have hres : (setup w goos goarch ⟨tools⟩).2
        = Except.error RunError.mkdirBinErr := by
      simp [setup, hbin]
    refine ⟨?_, ?_, ?_, ?_⟩
    · intro i d hmem
      rw [htr] at hmem
      simp at hmem
    · intro i url hmem
      rw [htr] at hmem
      simp at hmem
    · intro hnil ev hmem
      rw [htr] at hmem
      simp at hmem
    · intro hok
      rw [hres] at hok
      simp at hok

/-- C9 witness: on a successful one-tool run, the activation script is
written, instantiated from the general theorem. -/
theorem c9_witness :
    Event.writeActivate ∈ (setup allOkWorld "linux" "amd64" ⟨[tgzTool]⟩).1 :=
  (c9_storage_reset_and_activate allOkWorld "linux" "amd64" ⟨[tgzTool]⟩).2.2.2
    (by decide)

/-! ## Fold lemmas for the generator's append-only loops -/

theorem foldlM_appendStep_shift {α : Type} (h : α → Except TErr (List ALine)) :
    ∀ (l : List α) (acc : List ALine),
      l.foldlM (appendStep h) acc
        = (l.foldlM (appendStep h) []).map (fun tail => acc ++ tail) := by
  intro l
  induction l with
  | nil =>
    intro acc
    simp [List.foldlM_nil, Except.map, pure, Except.pure]
  | cons x rest ih =>
    intro acc
    rw [List.foldlM_cons, List.foldlM_cons]
    cases hx : h x with
    | error e =>
      simp [appendStep, hx, Except.map, Bind.bind, Except.bind, pure, Except.pure]
    | ok ls =>
      have l1 : appendStep h acc x = Except.ok (acc ++ ls) := by
        simp [appendStep, hx, Bind.bind, Except.bind, pure, Except.pure]
      have l2 : appendStep h [] x = Except.ok ls := by
        simp [appendStep, hx, Bind.bind, Except.bind, pure, Except.pure]
      rw [l1, l2]
      show rest.foldlM (appendStep h) (acc ++ ls)
        = (rest.foldlM (appendStep h) ls).map (fun tail => acc ++ tail)
      rw [ih (acc ++ ls), ih ls]
      cases hr : rest.foldlM (appendStep h) [] with
      | error e => simp [Except.map]
      | ok tail => simp [Except.map, List.append_assoc]

theorem foldlM_appendStep_cons_ex {α : Type} (h : α → Except TErr (List ALine))
    (x : α) (l : List α) (res : List ALine)
    (hr : (x :: l).foldlM (appendStep h) [] = Except.ok res) :
    ∃ ls tail, h x = Except.ok ls ∧ l.foldlM (appendStep h) [] = Except.ok tail ∧
      res = ls ++ tail := by
  rw [List.foldlM_cons] at hr
  cases hx : h x with
  | error e =>
    rw [show appendStep h [] x = Except.error e by
      simp [appendStep, hx, Bind.bind, Except.bind]] at hr
    cases hr
  | ok ls =>
    rw [show appendStep h [] x = Except.ok ls by
      simp [appendStep, hx, Bind.bind, Except.bind, pure, Except.pure]] at hr
    have hr' : l.foldlM (appendStep h) ls = Except.ok res := hr
    rw [foldlM_appendStep_shift h l ls] at hr'
    cases ht : l.foldlM (appendStep h) [] with
    | error e => rw [ht] at hr'; cases hr'
    | ok tail =>
      rw [ht] at hr'
      refine ⟨ls, tail, rfl, rfl, ?_⟩
      simpa [Except.map] using hr'.symm

theorem foldlM_appendStep_append_ex {α : Type} (h : α → Except TErr (List ALine))
    (l₁ l₂ : List α) (res : List ALine)
    (hr : (l₁ ++ l₂).foldlM (appendStep h) [] = Except.ok res) :
    ∃ r₁ r₂, l₁.foldlM (appendStep h) [] = Except.ok r₁ ∧
      l₂.foldlM (appendStep h) [] = Except.ok r₂ ∧ res = r₁ ++ r₂ := by
  rw [List.foldlM_append] at hr
  cases h1 : l₁.foldlM (appendStep h) [] with
  | error e => rw [h1] at hr; cases hr
  | ok r₁ =>
    rw [h1] at hr
    have hr' : l₂.foldlM (appendStep h) r₁ = Except.ok res := hr
    rw [foldlM_appendStep_shift h l₂ r₁] at hr'
    cases h2 : l₂.foldlM (appendStep h) [] with
    | error e => rw [h2] at hr'; cases hr'
    | ok r₂ =>
      rw [h2] at hr'
      exact ⟨r₁, r₂, rfl, rfl, by simpa [Except.map] using hr'.symm⟩

theorem foldlM_appendStep_mem {α : Type} (h : α → Except TErr (List ALine)) :
    ∀ (l : List α) (res : List ALine) (line : ALine),
      l.foldlM (appendStep h) [] = Except.ok res → line ∈ res →
      ∃ x ∈ l, ∃ ls, h x = Except.ok ls ∧ line ∈ ls := by
  intro l
  induction l with
  | nil =>
    intro res line hr hmem
    rw [List.foldlM_nil] at hr
    cases hr
    simp at hmem
  | cons x rest ih =>
    intro res line hr hmem
    obtain ⟨ls, tail, hx, ht, rfl⟩ := foldlM_appendStep_cons_ex h x rest res hr
    rcases List.mem_append.mp hmem with hin | hin
    · exact ⟨x, by simp, ls, hx, hin⟩
    · obtain ⟨y, hy, ls', hls', hin'⟩ := ih tail line ht hin
      exact ⟨y, by simp [hy], ls', hls', hin'⟩

/-- Shape of the lines one env entry contributes. -/
theorem toolEnvItem_shape (version : String) (kv : String × String)
    (ls : List ALine) (h : toolEnvItem version kv = Except.ok ls) :
    ∃ buf, expandEnvValue version kv.2 = Except.ok buf ∧
      ((kv.1 = "PATH" ∧ ls = [ALine.pathExport buf]) ∨
       (kv.1 ≠ "PATH" ∧ ls = [ALine.varExport kv.1 buf])) := by
  cases he : expandEnvValue version kv.2 with
  | error e =>
    rw [show toolEnvItem version kv = Except.error e by
      simp [toolEnvItem, he, Bind.bind, Except.bind]] at h
    cases h
  | ok buf =>
    by_cases hk : kv.1 = "PATH"
    · refine ⟨buf, rfl, Or.inl ⟨hk, ?_⟩⟩
      rw [show toolEnvItem version kv = Except.ok [ALine.pathExport buf] by
        simp [toolEnvItem, he, hk, Bind.bind, Except.bind, pure, Except.pure]] at h
      cases h
      rfl
    · refine ⟨buf, rfl, Or.inr ⟨hk, ?_⟩⟩
      rw [show toolEnvItem version kv = Except.ok [ALine.varExport kv.1 buf] by
        simp [toolEnvItem, he, hk, Bind.bind, Except.bind, pure, Except.pure]] at h
      cases h
      rfl

/-! ## PATH segments of a line list, and colon-joined strings -/

def pathSegs : List ALine → List String
  | [] => []
  | ALine.pathExport s :: rest => s :: pathSegs rest
  | _ :: rest => pathSegs rest

theorem pathSegs_append :
    ∀ (xs ys : List ALine), pathSegs (xs ++ ys) = pathSegs xs ++ pathSegs ys := by
  intro xs ys
  induction xs with
  | nil => simp [pathSegs]
  | cons l rest ih => cases l <;> simp [pathSegs, ih]

def colonJoin : List String → String
  | [] => ""
  | [x] => x
  | x :: y :: rest => x ++ ":" ++ colonJoin (y :: rest)

theorem colonJoin_cons (x : String) (l : List String) (h : l ≠ []) :
    colonJoin (x :: l) = x ++ ":" ++ colonJoin l := by
  cases l with
  | nil => exact absurd rfl h
  | cons y rest => rfl

theorem colonJoin_append_pair :
    ∀ (xs : List String) (a b : String),
      colonJoin (xs ++ [a ++ ":" ++ b]) = colonJoin (xs ++ [a, b]) := by
  intro xs
  induction xs with
  | nil => intro a b; rfl
  | cons x rest ih =>
    intro a b
    rw [List.cons_append, List.cons_append,
      colonJoin_cons x (rest ++ [a ++ ":" ++ b]) (by simp),
      colonJoin_cons x (rest ++ [a, b]) (by simp), ih]

/-! ## Shell-state lemmas -/

theorem lookupA_filter_self (l : List (String × String)) (k : String) :
    lookupA (l.filter (fun p => p.1 ≠ k)) k = none := by
  induction l with
  | nil => rfl
  | cons p rest ih =>
    by_cases h : p.1 = k <;> simp_all [List.filter_cons, lookupA]

theorem lookupA_filter_ne (l : List (String × String)) (k k' : String)
    (h : k' ≠ k) :
    lookupA (l.filter (fun p => p.1 ≠ k')) k = lookupA l k := by
  induction l with
  | nil => rfl
  | cons p rest ih =>
    by_cases hp : p.1 = k'
    · have hpk : p.1 ≠ k := by rw [hp]; exact h
      simp_all [List.filter_cons, lookupA]
    · by_cases hk : p.1 = k <;> simp_all [List.filter_cons, lookupA]

theorem getVar_setVar_self (st : ShellState) (k v : String) :
    getVar (setVar st k v) k = some v := by
  simp [getVar, setVar, lookupA]

theorem getVar_setVar_ne (st : ShellState) (k k' v : String) (h : k' ≠ k) :
    getVar (setVar st k' v) k = getVar st k := by
  simp [getVar, setVar, lookupA, h]

theorem getVar_unsetVar_self (st : ShellState) (k : String) :
    getVar (unsetVarS st k) k = none :=
  lookupA_filter_self st.vars k

theorem getVar_unsetVar_ne (st : ShellState) (k k' : String) (h : k' ≠ k) :
    getVar (unsetVarS st k') k = getVar st k :=
  lookupA_filter_ne st.vars k k' h

theorem evalALines_append (pwd e : String) (st : ShellState)
    (xs ys : List ALine) :
    evalALines pwd e st (xs ++ ys)
      = evalALines pwd e (evalALines pwd e st xs) ys := by
  simp [evalALines, List.foldl_append]

theorem evalALines_cons (pwd e : String) (st : ShellState) (l : ALine)
    (ls : List ALine) :
    evalALines pwd e st (l :: ls)
      = evalALines pwd e (evalALine pwd e st l) ls := rfl

/-- Names a script line writes or removes. -/
def touched : ALine → List String
  | .comment _ => []
  | .setToolenvDir => ["TOOLENV_DIR"]
  | .savePath => ["PREVIOUS_PATH"]
  | .pathExport _ => ["PATH"]
  | .varExport k _ => [k]
  | .saveOldPS1 => ["OLD_PS1"]
  | .setPrompt => ["PS1"]
  | .restorePS1 => ["PS1"]
  | .unsetVar k => [k]
  | .restorePath => ["PATH"]
  | .unsetDeactivate => []

theorem getVar_evalALine_not_touched (pwd e : String) (st : ShellState)
    (l : ALine) (k : String) (h : k ∉ touched l) :
    getVar (evalALine pwd e st l) k = getVar st k := by
  cases l with
  | comment s => rfl
  | setToolenvDir =>
    simp [touched] at h
    exact getVar_setVar_ne st k _ _ (Ne.symm h)
  | savePath =>
    simp [touched] at h
    exact getVar_setVar_ne st k _ _ (Ne.symm h)
  | pathExport s =>
    simp [touched] at h
    exact getVar_setVar_ne st k _ _ (Ne.symm h)
  | varExport k' s =>
    simp [touched] at h
    exact getVar_setVar_ne st k _ _ (Ne.symm h)
  | saveOldPS1 =>
    simp [touched] at h
    exact getVar_setVar_ne st k _ _ (Ne.symm h)
  | setPrompt =>
    simp [touched] at h
    exact getVar_setVar_ne st k _ _ (Ne.symm h)
  | restorePS1 =>
    simp [touched] at h
    exact getVar_setVar_ne st k _ _ (Ne.symm h)
  | unsetVar k' =>
    simp [touched] at h
    exact getVar_unsetVar_ne st k _ (Ne.symm h)
  | restorePath =>
    simp [touched] at h
    exact getVar_setVar_ne st k _ _ (Ne.symm h)
  | unsetDeactivate => rfl

theorem getVar_evalALines_not_touched (pwd e k : String) :
    ∀ (ls : List ALine) (st : ShellState),
      (∀ l ∈ ls, k ∉ touched l) →
      getVar (evalALines pwd e st ls) k = getVar st k := by
  intro ls
  induction ls with
  | nil => intro st _; rfl
  | cons l rest ih =>
    intro st hok
    rw [evalALines_cons, ih _ (fun l' h' => hok l' (by simp [h'])),
      getVar_evalALine_not_touched pwd e st l k (hok l (by simp))]

/-! ## Decomposition of a successful script generation -/

theorem scriptALines_ok_ex (env_name : String) (tools : List Tool)
    (sc : AScript) (h : scriptALines env_name tools = Except.ok sc) :
    ∃ envLines, tools.foldlM (appendStep toolALines) [] = Except.ok envLines ∧
      sc = { exports := hdrLines env_name ++ envLines ++ tailLines
             deacBody := deacLinesOf tools } := by
  cases he : tools.foldlM (appendStep toolALines) [] with
  | error e =>
    simp [scriptALines, he, Bind.bind, Except.bind] at h
  | ok envLines =>
    refine ⟨envLines, rfl, ?_⟩
    have h2 : (Except.ok { exports := hdrLines env_name ++ envLines ++ tailLines
                           deacBody := deacLinesOf tools } : Except TErr AScript)
        = Except.ok sc := by
      rw [← h]
      simp [scriptALines, he, Bind.bind, Except.bind, pure, Except.pure]
    injection h2 with h3
    exact h3.symm

/-- Shape of the lines produced by the env loop: each is either a PATH
prepend or an export of a non-PATH key declared by some tool. -/
theorem envLines_shape (tools : List Tool) (envLines : List ALine)
    (h : tools.foldlM (appendStep toolALines) [] = Except.ok envLines) :
    ∀ l ∈ envLines, (∃ s, l = ALine.pathExport s) ∨
      ∃ k s, l = ALine.varExport k s ∧ k ≠ "PATH" ∧
        ∃ t, t ∈ tools ∧ ∃ v, (k, v) ∈ t.env := by
  intro l hmem
  obtain ⟨t, ht, ls, hls, hin⟩ :=
    foldlM_appendStep_mem toolALines tools envLines l h hmem
  obtain ⟨kv, hkv, ls', hls', hin'⟩ :=
    foldlM_appendStep_mem (toolEnvItem t.version) t.env ls l hls hin
  obtain ⟨buf, _, hcase⟩ := toolEnvItem_shape t.version kv ls' hls'
  rcases hcase with ⟨hk, rfl⟩ | ⟨hk, rfl⟩
  · simp at hin'
    subst hin'
    exact Or.inl ⟨buf, rfl⟩
  · simp at hin'
    subst hin'
    exact Or.inr ⟨kv.1, buf, rfl, hk, t, ht, kv.2, hkv⟩

/-- A tool's declared PATH entry contributes its expanded segment to
the tool's PATH-prepending lines. -/
theorem toolALines_path_seg (t : Tool) (ls : List ALine) (p s : String)
    (hok : toolALines t = Except.ok ls)
    (hmem : ("PATH", p) ∈ t.env)
    (hexp : expandEnvValue t.version p = Except.ok s) :
    s ∈ pathSegs ls := by
  obtain ⟨e₁, e₂, henv⟩ := List.append_of_mem hmem
  have hok' : (e₁ ++ ("PATH", p) :: e₂).foldlM
      (appendStep (toolEnvItem t.version)) [] = Except.ok ls := by
    rw [← henv]
    exact hok
  obtain ⟨r₁, r₂, _, hr₂, rfl⟩ :=
    foldlM_appendStep_append_ex (toolEnvItem t.version) e₁ (("PATH", p) :: e₂)
      ls hok'
  obtain ⟨ls₀, tail, hitem, _, rfl⟩ :=
    foldlM_appendStep_cons_ex (toolEnvItem t.version) ("PATH", p) e₂ r₂ hr₂
  have hitem' : toolEnvItem t.version ("PATH", p)
      = Except.ok [ALine.pathExport s] := by
    simp [toolEnvItem, hexp, Bind.bind, Except.bind, pure, Except.pure]
  rw [hitem'] at hitem
  injection hitem with hitem
  subst hitem
  simp [pathSegs_append, pathSegs]

/-- Indices witnessing that an element of the left part of an append
comes before an element of the right part. -/
theorem exists_lt_indices {α : Type} (u v : List α) (x y : α)
    (hx : x ∈ u) (hy : y ∈ v) :
    ∃ (a b : Nat), a < b ∧ (u ++ v)[a]? = some x ∧ (u ++ v)[b]? = some y := by
  obtain ⟨a, ha⟩ := List.mem_iff_getElem?.mp hx
  obtain ⟨j, hj⟩ := List.mem_iff_getElem?.mp hy
  have ha' : a < u.length := by
    by_contra hlt
    push_neg at hlt
    rw [List.getElem?_eq_none hlt] at ha
    cases ha
  refine ⟨a, u.length + j, by omega, ?_, ?_⟩
  · rw [List.getElem?_append_left ha']
    exact ha
  · rw [List.getElem?_append_right (by omega)]
    simpa using hj

/-! ## Effect of the env-loop lines on PATH -/

/-- Shape constraint under which the env lines are evaluated for the
PATH computation: PATH prepends, and exports of keys that are neither
PATH (true by construction) nor TOOLENV_DIR (a manifest hypothesis). -/
def envLineOK (l : ALine) : Prop :=
  (∃ s, l = ALine.pathExport s) ∨
  ∃ k s, l = ALine.varExport k s ∧ k ≠ "PATH" ∧ k ≠ "TOOLENV_DIR"

theorem evalALines_env_path (pwd e : String) :
    ∀ (ls : List ALine) (st : ShellState) (D : String),
      (∀ l ∈ ls, envLineOK l) →
      getVar st "TOOLENV_DIR" = some D →
      valueOf (evalALines pwd e st ls) "PATH"
        = colonJoin ((pathSegs ls).reverse.map (fun s => D ++ "/" ++ s)
            ++ [valueOf st "PATH"]) ∧
      getVar (evalALines pwd e st ls) "TOOLENV_DIR" = some D := by
  intro ls
  induction ls with
  | nil =>
    intro st D hok hTD
    exact ⟨by simp [evalALines, pathSegs, colonJoin], by simpa [evalALines] using hTD⟩
  | cons l rest ih =>
    intro st D hok hTD
    have hrest : ∀ l' ∈ rest, envLineOK l' := fun l' h' => hok l' (by simp [h'])
    rcases hok l (by simp) with ⟨s, rfl⟩ | ⟨k, s, rfl, hkP, hkT⟩
    · rw [evalALines_cons]
      have hTD' : getVar (evalALine pwd e st (ALine.pathExport s)) "TOOLENV_DIR"
          = some D := by
        show getVar (setVar st "PATH" _) "TOOLENV_DIR" = some D
        rw [getVar_setVar_ne st _ _ _ (by decide)]
        exact hTD
      obtain ⟨h1, h2⟩ := ih (evalALine pwd e st (ALine.pathExport s)) D hrest hTD'
      refine ⟨?_, h2⟩
      rw [h1]
      have hv : valueOf (evalALine pwd e st (ALine.pathExport s)) "PATH"
          = (D ++ "/" ++ s) ++ ":" ++ valueOf st "PATH" := by
        show valueOf (setVar st "PATH"
          (valueOf st "TOOLENV_DIR" ++ "/" ++ s ++ ":" ++ valueOf st "PATH"))
            "PATH" = _
        rw [valueOf, getVar_setVar_self]
        simp [valueOf, hTD]
      rw [hv]
      rw [show pathSegs (ALine.pathExport s :: rest) = s :: pathSegs rest from rfl,
        List.reverse_cons, List.map_append, List.append_assoc]
      exact colonJoin_append_pair _ _ _
    · rw [evalALines_cons]
      have hTD' : getVar (evalALine pwd e st (ALine.varExport k s)) "TOOLENV_DIR"
          = some D := by
        show getVar (setVar st k _) "TOOLENV_DIR" = some D
        rw [getVar_setVar_ne st _ _ _ hkT]
        exact hTD
      obtain ⟨h1, h2⟩ := ih (evalALine pwd e st (ALine.varExport k s)) D hrest hTD'
      refine ⟨?_, h2⟩
      rw [h1]
      have hv : valueOf (evalALine pwd e st (ALine.varExport k s)) "PATH"
          = valueOf st "PATH" := by
        show valueOf (setVar st k _) "PATH" = _
        rw [valueOf, getVar_setVar_ne st _ _ _ hkP, valueOf]
      rw [hv]
      rw [show pathSegs (ALine.varExport k s :: rest) = pathSegs rest from rfl]

theorem valueOf_eq_of_getVar {st st' : ShellState} {k : String}
    (h : getVar st k = getVar st' k) : valueOf st k = valueOf st' k := by
  simp [valueOf, h]

/-! ## Claim C5 -/

/-- C5: sourcing the generated activation script computes PATH as a
colon-join of prepended segments in front of the original value, and
when an earlier tool t1 and a later tool t2 both declare a PATH env
entry, the later tool's resolved segment sits at a strictly smaller
index (closer to the front) than the earlier tool's, because export
lines are emitted in manifest order and each prepends to the previous
value. -/
theorem c5_later_tool_path_in_front (pwd e : String) (st0 : ShellState)
    (pre mid post : List Tool) (t1 t2 : Tool) (p1 p2 s1 s2 : String)
    (sc : AScript)
    (hsc : scriptALines e (pre ++ t1 :: (mid ++ t2 :: post)) = Except.ok sc)
    (hp1 : ("PATH", p1) ∈ t1.env) (hp2 : ("PATH", p2) ∈ t2.env)
    (hs1 : expandEnvValue t1.version p1 = Except.ok s1)
    (hs2 : expandEnvValue t2.version p2 = Except.ok s2)
    (hkeys : ∀ t ∈ pre ++ t1 :: (mid ++ t2 :: post), ∀ kv ∈ t.env,
        kv.1 ≠ "TOOLENV_DIR") :
    ∃ (parts : List String) (a b : Nat),
      valueOf (sourceScript pwd e sc st0) "PATH"
        = colonJoin (parts ++ [valueOf st0 "PATH"]) ∧
      a < b ∧
      parts[a]? = some (pwd ++ "/" ++ e ++ "/" ++ s2) ∧
      parts[b]? = some (pwd ++ "/" ++ e ++ "/" ++ s1) := by
  obtain ⟨envLines, hfold, rfl⟩ := scriptALines_ok_ex e _ sc hsc
  have hTDh : getVar (evalALines pwd e st0 (hdrLines e)) "TOOLENV_DIR"
      = some (pwd ++ "/" ++ e) := by
    show getVar (setVar (setVar st0 "TOOLENV_DIR" (pwd ++ "/" ++ e))
      "PREVIOUS_PATH" _) "TOOLENV_DIR" = _
    rw [getVar_setVar_ne _ _ _ _ (by decide), getVar_setVar_self]
  have hPh : valueOf (evalALines pwd e st0 (hdrLines e)) "PATH"
      = valueOf st0 "PATH" := by
    refine valueOf_eq_of_getVar ?_
    show getVar (setVar (setVar st0 "TOOLENV_DIR" (pwd ++ "/" ++ e))
      "PREVIOUS_PATH" _) "PATH" = _
    rw [getVar_setVar_ne _ _ _ _ (by decide), getVar_setVar_ne _ _ _ _ (by decide)]
  have hshape : ∀ l ∈ envLines, envLineOK l := by
    intro l hl
    rcases envLines_shape _ envLines hfold l hl with
      ⟨q, rfl⟩ | ⟨k, q, rfl, hkP, t, ht, v, hkv⟩
    · exact Or.inl ⟨q, rfl⟩
    · exact Or.inr ⟨k, q, rfl, hkP, hkeys t ht (k, v) hkv⟩
  obtain ⟨hpath, _⟩ := evalALines_env_path pwd e envLines
    (evalALines pwd e st0 (hdrLines e)) (pwd ++ "/" ++ e) hshape hTDh
  have htail : getVar (evalALines pwd e
      (evalALines pwd e (evalALines pwd e st0 (hdrLines e)) envLines) tailLines)
        "PATH"
      = getVar (evalALines pwd e (evalALines pwd e st0 (hdrLines e)) envLines)
        "PATH" :=
    getVar_evalALines_not_touched pwd e "PATH" tailLines _ (by decide)
  obtain ⟨A, r₁, hA, hr₁, henv⟩ :=
    foldlM_appendStep_append_ex toolALines pre (t1 :: (mid ++ t2 :: post))
      envLines hfold
  obtain ⟨ls1, r₂, hls1, hr₂, hsplit1⟩ :=
    foldlM_appendStep_cons_ex toolALines t1 (mid ++ t2 :: post) r₁ hr₁
  obtain ⟨B, r₃, hB, hr₃, hsplit2⟩ :=
    foldlM_appendStep_append_ex toolALines mid (t2 :: post) r₂ hr₂
  obtain ⟨ls2, C, hls2, hC, hsplit3⟩ :=
    foldlM_appendStep_cons_ex toolALines t2 post r₃ hr₃
  have s1seg : s1 ∈ pathSegs ls1 := toolALines_path_seg t1 ls1 p1 s1 hls1 hp1 hs1
  have s2seg : s2 ∈ pathSegs ls2 := toolALines_path_seg t2 ls2 p2 s2 hls2 hp2 hs2
  have hsegs : (pathSegs envLines).reverse
      = ((pathSegs C).reverse ++ (pathSegs ls2).reverse)
        ++ ((pathSegs B).reverse ++ (pathSegs ls1).reverse
            ++ (pathSegs A).reverse) := by
    rw [henv, hsplit1, hsplit2, hsplit3]
    simp [pathSegs_append, List.reverse_append, List.append_assoc]
  have hmem2 : s2 ∈ (pathSegs C).reverse ++ (pathSegs ls2).reverse := by
    simp [List.mem_reverse]
    exact Or.inr s2seg
  have hmem1 : s1 ∈ (pathSegs B).reverse ++ (pathSegs ls1).reverse
      ++ (pathSegs A).reverse := by
    simp [List.mem_reverse]
    exact Or.inr (Or.inl s1seg)
  obtain ⟨a, b, hab, hga, hgb⟩ := exists_lt_indices _ _ s2 s1 hmem2 hmem1
  refine ⟨(pathSegs envLines).reverse.map
      (fun q => pwd ++ "/" ++ e ++ "/" ++ q), a, b, ?_, hab, ?_, ?_⟩
  · have hsrc : valueOf (sourceScript pwd e
        { exports := hdrLines e ++ envLines ++ tailLines
          deacBody := deacLinesOf (pre ++ t1 :: (mid ++ t2 :: post)) } st0) "PATH"
        = valueOf (evalALines pwd e st0
            ((hdrLines e ++ envLines) ++ tailLines)) "PATH" := rfl
    rw [hsrc, evalALines_append, evalALines_append,
      valueOf_eq_of_getVar htail, hpath, hPh]
  · rw [hsegs, List.getElem?_map, hga]
    rfl
  · rw [hsegs, List.getElem?_map, hgb]
    rfl

/-- C5 witness data: two tools that only declare PATH. -/
def pathTool (n seg : String) : Tool := ⟨n, "1.0", "", [("PATH", seg)], none⟩

def c5sc : AScript :=
  ((scriptALines "env" [pathTool "a" "sa/bin", pathTool "b" "sb/bin"]).toOption).getD
    ⟨[], []⟩

def st0c : ShellState := ⟨[("PATH", "/usr/bin"), ("PS1", "$ ")], false⟩

/-- C5 witness: the general theorem instantiated at a concrete
two-tool manifest. -/
theorem c5_witness :
    ∃ (parts : List String) (a b : Nat),
      valueOf (sourceScript "/w" "env" c5sc st0c) "PATH"
        = colonJoin (parts ++ [valueOf st0c "PATH"]) ∧
      a < b ∧
      parts[a]? = some ("/w" ++ "/" ++ "env" ++ "/" ++ "sb/bin") ∧
      parts[b]? = some ("/w" ++ "/" ++ "env" ++ "/" ++ "sa/bin") :=
  c5_later_tool_path_in_front "/w" "env" st0c [] [] []
    (pathTool "a" "sa/bin") (pathTool "b" "sb/bin")
    "sa/bin" "sb/bin" "sa/bin" "sb/bin" c5sc
    (by decide) (by decide) (by decide) (by decide) (by decide) (by decide)

/-! ## Unset-line lemmas for the deactivate body -/

theorem usLines_shape (tools : List Tool) :
    ∀ l ∈ usLines tools, ∃ k, l = ALine.unsetVar k ∧ k ≠ "PATH" ∧
      ∃ t, t ∈ tools ∧ ∃ v, (k, v) ∈ t.env := by
  intro l hl
  simp only [usLines, List.mem_flatMap, List.mem_map] at hl
  obtain ⟨t, ht, kv, hkv, rfl⟩ := hl
  rw [List.mem_filter] at hkv
  refine ⟨kv.1, rfl, by simpa using hkv.2, t, ht, kv.2, by simpa using hkv.1⟩

theorem unset_mem_usLines (tools : List Tool) (t : Tool) (k v : String)
    (ht : t ∈ tools) (hkv : (k, v) ∈ t.env) (hkP : k ≠ "PATH") :
    ALine.unsetVar k ∈ usLines tools := by
  simp only [usLines, List.mem_flatMap, List.mem_map]
  exact ⟨t, ht, (k, v), List.mem_filter.mpr ⟨hkv, by simp [hkP]⟩, rfl⟩

theorem getVar_evalALines_unset_none (pwd e k : String) :
    ∀ (ls : List ALine) (st : ShellState),
      (∀ l ∈ ls, ∃ k', l = ALine.unsetVar k') →
      getVar st k = none →
      getVar (evalALines pwd e st ls) k = none := by
  intro ls
  induction ls with
  | nil => intro st _ h; exact h
  | cons l rest ih =>
    intro st hsh h
    obtain ⟨k', rfl⟩ := hsh l (by simp)
    rw [evalALines_cons]
    apply ih _ (fun l' hl' => hsh l' (by simp [hl']))
    show getVar (unsetVarS st k') k = none
    by_cases hkk : k' = k
    · subst hkk
      exact getVar_unsetVar_self st k'
    · rw [getVar_unsetVar_ne st k k' hkk]
      exact h

theorem getVar_evalALines_unset_mem (pwd e k : String) :
    ∀ (ls : List ALine) (st : ShellState),
      (∀ l ∈ ls, ∃ k', l = ALine.unsetVar k') →
      ALine.unsetVar k ∈ ls →
      getVar (evalALines pwd e st ls) k = none := by
  intro ls
  induction ls with
  | nil => intro st _ h; simp at h
  | cons l rest ih =>
    intro st hsh hmem
    obtain ⟨k', rfl⟩ := hsh l (by simp)
    rw [evalALines_cons]
    rcases List.mem_cons.mp hmem with heq | hmem'
    · injection heq with hk
      subst hk
      apply getVar_evalALines_unset_none pwd e k rest _
        (fun l' hl' => hsh l' (by simp [hl']))
      exact getVar_unsetVar_self st k
    · exact ih _ (fun l' hl' => hsh l' (by simp [hl'])) hmem'

/-! ## Claim C6 -/

/-- C6: after sourcing the generated script, running the generated
deactivate body restores the prompt from the saved previous prompt and
PATH by value from PREVIOUS_PATH (rather than unsetting it), unsets
every non-PATH variable the activation exported (the body contains an
unset line for each such tool/env pair), and unsets the bookkeeping
variables OLD_PS1, PREVIOUS_PATH and TOOLENV_DIR together with the
deactivate function itself. -/
theorem c6_deactivate_restores (pwd e : String) (st0 : ShellState)
    (tools : List Tool) (sc : AScript) (ps0 path0 : String)
    (hsc : scriptALines e tools = Except.ok sc)
    (hkeys : ∀ t ∈ tools, ∀ kv ∈ t.env, kv.1 ≠ "PS1" ∧ kv.1 ≠ "OLD_PS1" ∧
        kv.1 ≠ "PREVIOUS_PATH" ∧ kv.1 ≠ "TOOLENV_DIR")
    (hps : getVar st0 "PS1" = some ps0)
    (hpath : getVar st0 "PATH" = some path0) :
    getVar (runDeactivate pwd e sc (sourceScript pwd e sc st0)) "PS1"
      = some ps0 ∧
    getVar (runDeactivate pwd e sc (sourceScript pwd e sc st0)) "PATH"
      = some path0 ∧
    (∀ t ∈ tools, ∀ kv ∈ t.env, kv.1 ≠ "PATH" →
      getVar (runDeactivate pwd e sc (sourceScript pwd e sc st0)) kv.1 = none) ∧
    getVar (runDeactivate pwd e sc (sourceScript pwd e sc st0)) "OLD_PS1"
      = none ∧
    getVar (runDeactivate pwd e sc (sourceScript pwd e sc st0)) "PREVIOUS_PATH"
      = none ∧
    getVar (runDeactivate pwd e sc (sourceScript pwd e sc st0)) "TOOLENV_DIR"
      = none ∧
    (runDeactivate pwd e sc (sourceScript pwd e sc st0)).hasDeactivate = false ∧
    (∀ t ∈ tools, ∀ kv ∈ t.env, kv.1 ≠ "PATH" →
      ALine.unsetVar kv.1 ∈ sc.deacBody) := by
  obtain ⟨envLines, hfold, rfl⟩ := scriptALines_ok_ex e tools sc hsc
  set rec : AScript := { exports := hdrLines e ++ envLines ++ tailLines
                         deacBody := deacLinesOf tools } with hrecd
  set stH := evalALines pwd e st0 (hdrLines e) with hstHd
  set stM := evalALines pwd e stH envLines with hstMd
  set stT := evalALines pwd e stM tailLines with hstTd
  set st1 := sourceScript pwd e rec st0 with hst1d
  -- header-stage facts
  have hH_PP : getVar stH "PREVIOUS_PATH" = some path0 := by
    show getVar (setVar (setVar st0 "TOOLENV_DIR" (pwd ++ "/" ++ e))
      "PREVIOUS_PATH"
      (valueOf (setVar st0 "TOOLENV_DIR" (pwd ++ "/" ++ e)) "PATH"))
      "PREVIOUS_PATH" = _
    rw [getVar_setVar_self, valueOf, getVar_setVar_ne _ _ _ _ (by decide), hpath]
    rfl
  have hH_PS : getVar stH "PS1" = some ps0 := by
    show getVar (setVar (setVar st0 "TOOLENV_DIR" (pwd ++ "/" ++ e))
      "PREVIOUS_PATH" _) "PS1" = _
    rw [getVar_setVar_ne _ _ _ _ (by decide),
      getVar_setVar_ne _ _ _ _ (by decide), hps]
  -- the env loop does not touch a name that is neither PATH nor a key
  have hpres : ∀ (name : String), name ≠ "PATH" →
      (∀ t ∈ tools, ∀ kv ∈ t.env, kv.1 ≠ name) →
      getVar stM name = getVar stH name := by
    intro name hnp hk
    apply getVar_evalALines_not_touched
    intro l hl
    rcases envLines_shape tools envLines hfold l hl with
      ⟨q, rfl⟩ | ⟨k, q, rfl, hkP, t, ht, v, hkv⟩
    · simp [touched]
      exact hnp
    · simp [touched]
      intro h
      exact hk t ht (k, v) hkv h.symm
  have hM_PP : getVar stM "PREVIOUS_PATH" = some path0 :=
    (hpres "PREVIOUS_PATH" (by decide)
      (fun t ht kv hkv => (hkeys t ht kv hkv).2.2.1)).trans hH_PP
  have hM_PS : getVar stM "PS1" = some ps0 :=
    (hpres "PS1" (by decide)
      (fun t ht kv hkv => (hkeys t ht kv hkv).1)).trans hH_PS
  -- tail-stage facts
  have hT_OLD : getVar stT "OLD_PS1" = some ps0 := by
    show getVar (setVar (setVar stM "OLD_PS1" (valueOf stM "PS1")) "PS1" _)
      "OLD_PS1" = _
    rw [getVar_setVar_ne _ _ _ _ (by decide), getVar_setVar_self, valueOf,
      hM_PS]
    rfl
  have hT_PP : getVar stT "PREVIOUS_PATH" = some path0 := by
    show getVar (setVar (setVar stM "OLD_PS1" _) "PS1" _) "PREVIOUS_PATH" = _
    rw [getVar_setVar_ne _ _ _ _ (by decide),
      getVar_setVar_ne _ _ _ _ (by decide), hM_PP]
  -- sourcing = header, env loop, tail
  have hst1v : ∀ X, getVar st1 X = getVar stT X := by
    intro X
    show getVar (evalALines pwd e st0
      ((hdrLines e ++ envLines) ++ tailLines)) X = _
    rw [evalALines_append, evalALines_append]
  -- deactivate body, first two lines
  set d2 := evalALines pwd e st1 [ALine.restorePS1, ALine.unsetVar "OLD_PS1"]
    with hd2d
  set d3 := evalALines pwd e d2 (usLines tools) with hd3d
  have hd2_PS : getVar d2 "PS1" = some ps0 := by
    show getVar (unsetVarS (setVar st1 "PS1" (valueOf st1 "OLD_PS1"))
      "OLD_PS1") "PS1" = _
    rw [getVar_unsetVar_ne _ _ _ (by decide), getVar_setVar_self, valueOf,
      hst1v "OLD_PS1", hT_OLD]
    rfl
  have hd2_PP : getVar d2 "PREVIOUS_PATH" = some path0 := by
    show getVar (unsetVarS (setVar st1 "PS1" _) "OLD_PS1") "PREVIOUS_PATH" = _
    rw [getVar_unsetVar_ne _ _ _ (by decide),
      getVar_setVar_ne _ _ _ _ (by decide), hst1v "PREVIOUS_PATH", hT_PP]
  have hd2_OLD : getVar d2 "OLD_PS1" = none := by
    show getVar (unsetVarS (setVar st1 "PS1" _) "OLD_PS1") "OLD_PS1" = none
    exact getVar_unsetVar_self _ _
  -- the unset block
  have hussh : ∀ l ∈ usLines tools, ∃ k', l = ALine.unsetVar k' := by
    intro l hl
    obtain ⟨k, rfl, _⟩ := usLines_shape tools l hl
    exact ⟨k, rfl⟩
  have huspres : ∀ (name : String),
      (∀ t ∈ tools, ∀ kv ∈ t.env, kv.1 ≠ name) →
      ∀ (stX : ShellState),
        getVar (evalALines pwd e stX (usLines tools)) name = getVar stX name := by
    intro name hk stX
    apply getVar_evalALines_not_touched
    intro l hl
    obtain ⟨k, rfl, _, t, ht, v, hkv⟩ := usLines_shape tools l hl
    simp [touched]
    intro h
    exact hk t ht (k, v) hkv h.symm
  have hd3_PS : getVar d3 "PS1" = some ps0 :=
    (huspres "PS1" (fun t ht kv hkv => (hkeys t ht kv hkv).1) d2).trans hd2_PS
  have hd3_PP : getVar d3 "PREVIOUS_PATH" = some path0 :=
    (huspres "PREVIOUS_PATH"
      (fun t ht kv hkv => (hkeys t ht kv hkv).2.2.1) d2).trans hd2_PP
  have hd3_OLD : getVar d3 "OLD_PS1" = none :=
    (huspres "OLD_PS1"
      (fun t ht kv hkv => (hkeys t ht kv hkv).2.1) d2).trans hd2_OLD
  have hd3_env : ∀ t ∈ tools, ∀ kv ∈ t.env, kv.1 ≠ "PATH" →
      getVar d3 kv.1 = none := by
    intro t ht kv hkv hkP
    apply getVar_evalALines_unset_mem pwd e kv.1 (usLines tools) d2 hussh
    exact unset_mem_usLines tools t kv.1 kv.2 ht (by simpa using hkv) hkP
  -- the whole deactivate body
  have hst2 : ∀ X, getVar (runDeactivate pwd e rec st1) X
      = getVar (evalALines pwd e d3
          [ALine.restorePath, ALine.unsetVar "PREVIOUS_PATH",
           ALine.unsetVar "TOOLENV_DIR", ALine.unsetDeactivate]) X := by
    intro X
    show getVar (evalALines pwd e st1
      (([ALine.restorePS1, ALine.unsetVar "OLD_PS1"] ++ usLines tools) ++
        [ALine.restorePath, ALine.unsetVar "PREVIOUS_PATH",
         ALine.unsetVar "TOOLENV_DIR", ALine.unsetDeactivate])) X = _
    rw [evalALines_append, evalALines_append]
  refine ⟨?_, ?_, ?_, ?_, ?_, ?_, ?_, ?_⟩
  · rw [hst2 "PS1"]
    show getVar (unsetVarS (unsetVarS (setVar d3 "PATH"
      (valueOf d3 "PREVIOUS_PATH")) "PREVIOUS_PATH") "TOOLENV_DIR") "PS1" = _
    rw [getVar_unsetVar_ne _ _ _ (by decide),
      getVar_unsetVar_ne _ _ _ (by decide),
      getVar_setVar_ne _ _ _ _ (by decide), hd3_PS]
  · rw [hst2 "PATH"]
    show getVar (unsetVarS (unsetVarS (setVar d3 "PATH"
      (valueOf d3 "PREVIOUS_PATH")) "PREVIOUS_PATH") "TOOLENV_DIR") "PATH" = _
    rw [getVar_unsetVar_ne _ _ _ (by decide),
      getVar_unsetVar_ne _ _ _ (by decide), getVar_setVar_self, valueOf,
      hd3_PP]
    rfl
  · intro t ht kv hkv hkP
    rw [hst2 kv.1]
    show getVar (unsetVarS (unsetVarS (setVar d3 "PATH"
      (valueOf d3 "PREVIOUS_PATH")) "PREVIOUS_PATH") "TOOLENV_DIR") kv.1 = _
    rw [getVar_unsetVar_ne _ _ _
        (fun h => (hkeys t ht kv hkv).2.2.2 h.symm),
      getVar_unsetVar_ne _ _ _
        (fun h => (hkeys t ht kv hkv).2.2.1 h.symm),
      getVar_setVar_ne _ _ _ _ (fun h => hkP h.symm)]
    exact hd3_env t ht kv hkv hkP
  · rw [hst2 "OLD_PS1"]
    show getVar (unsetVarS (unsetVarS (setVar d3 "PATH" _) "PREVIOUS_PATH")
      "TOOLENV_DIR") "OLD_PS1" = none
    rw [getVar_unsetVar_ne _ _ _ (by decide),
      getVar_unsetVar_ne _ _ _ (by decide),
      getVar_setVar_ne _ _ _ _ (by decide)]
    exact hd3_OLD
  · rw [hst2 "PREVIOUS_PATH"]
    show getVar (unsetVarS (unsetVarS (setVar d3 "PATH" _) "PREVIOUS_PATH")
      "TOOLENV_DIR") "PREVIOUS_PATH" = none
    rw [getVar_unsetVar_ne _ _ _ (by decide)]
    exact getVar_unsetVar_self _ _
  · rw [hst2 "TOOLENV_DIR"]
    exact getVar_unsetVar_self _ _
  · show (evalALines pwd e st1
      (([ALine.restorePS1, ALine.unsetVar "OLD_PS1"] ++ usLines tools) ++
        [ALine.restorePath, ALine.unsetVar "PREVIOUS_PATH",
         ALine.unsetVar "TOOLENV_DIR", ALine.unsetDeactivate])).hasDeactivate
      = false
    rw [evalALines_append, evalALines_append]
    rfl
  · intro t ht kv hkv hkP
    show ALine.unsetVar kv.1 ∈ deacLinesOf tools
    refine List.mem_append.mpr (Or.inl (List.mem_append.mpr (Or.inr ?_)))
    exact unset_mem_usLines tools t kv.1 kv.2 ht (by simpa using hkv) hkP

/-- C6 witness data: one tool exporting GOROOT and PATH. -/
def c6tool : Tool :=
  ⟨"go", "1.25.0", "",
   [("GOROOT", "storage/go@\x7b\x7b.version\x7d\x7d"),
    ("PATH", "storage/go@\x7b\x7b.version\x7d\x7d/bin")], none⟩

def c6sc : AScript :=
  ((scriptALines "env" [c6tool]).toOption).getD ⟨[], []⟩

/-- C6 witness: the general theorem instantiated at a concrete
activation and deactivation round trip. -/
theorem c6_witness :
    getVar (runDeactivate "/w" "env" c6sc (sourceScript "/w" "env" c6sc st0c))
      "PS1" = some "$ " ∧
    getVar (runDeactivate "/w" "env" c6sc (sourceScript "/w" "env" c6sc st0c))
      "PATH" = some "/usr/bin" ∧
    getVar (runDeactivate "/w" "env" c6sc (sourceScript "/w" "env" c6sc st0c))
      "GOROOT" = none ∧
    (runDeactivate "/w" "env" c6sc
      (sourceScript "/w" "env" c6sc st0c)).hasDeactivate = false :=
  ⟨(c6_deactivate_restores "/w" "env" st0c [c6tool] c6sc "$ " "/usr/bin"
      (by decide) (by decide) (by decide) (by decide)).1,
   (c6_deactivate_restores "/w" "env" st0c [c6tool] c6sc "$ " "/usr/bin"
      (by decide) (by decide) (by decide) (by decide)).2.1,
   (c6_deactivate_restores "/w" "env" st0c [c6tool] c6sc "$ " "/usr/bin"
      (by decide) (by decide) (by decide) (by decide)).2.2.1 c6tool (by decide)
      ("GOROOT", "storage/go@\x7b\x7b.version\x7d\x7d") (by decide) (by decide),
   (c6_deactivate_restores "/w" "env" st0c [c6tool] c6sc "$ " "/usr/bin"
      (by decide) (by decide) (by decide) (by decide)).2.2.2.2.2.2.1⟩

end Toolenv
